import Mathlib

/-!
Shallow embedding of `bokeh/util/session_id.py`: generation and verification
of (optionally HMAC-SHA256-signed) session identifiers.

Modelling conventions:

* Python `bytes` values are `List Nat` with every element `< 256`.
* The process-global pseudo-random generator (`random.SystemRandom()` or the
  Mersenne-Twister fallback — both Python standard library, outside this
  repository) is modelled as an arbitrary stream `g : Nat → Nat` of draws;
  `random.choice(seq)` returns `seq[i]` for some generator-determined index
  `i < len(seq)`, which the model captures as indexing by `g n % len(seq)`.
  Quantifying over all streams covers every behaviour of the real generator.
* `hmac.new(None, msg, sha256)` raises `TypeError` in Python, and so does
  `hmac.compare_digest` when a `str` argument contains a non-ASCII
  character; fallible paths are therefore modelled with `Except PyError`.
* SHA-256, HMAC and URL-safe base64 are implemented concretely below
  (they are Python standard library calls in the source: `hashlib.sha256`,
  `hmac.new(...).digest()`, `base64.urlsafe_b64encode`).
-/

namespace SessionId

/-- Arithmetic truncation to a 32-bit word. -/
def w32 (n : Nat) : Nat := n % 4294967296

/-- Right rotation of a 32-bit word by `n` bits. -/
def rotr (n x : Nat) : Nat := w32 ((x >>> n) ||| (x <<< (32 - n)))

/-- SHA-256 `Ch` function; complement of `x` is `x ^^^ 0xFFFFFFFF` on words. -/
def ch (x y z : Nat) : Nat := (x &&& y) ^^^ ((x ^^^ 4294967295) &&& z)

/-- SHA-256 `Maj` function. -/
def maj (x y z : Nat) : Nat := (x &&& y) ^^^ (x &&& z) ^^^ (y &&& z)

/-- SHA-256 big sigma-0. -/
def bsig0 (x : Nat) : Nat := rotr 2 x ^^^ rotr 13 x ^^^ rotr 22 x

/-- SHA-256 big sigma-1. -/
def bsig1 (x : Nat) : Nat := rotr 6 x ^^^ rotr 11 x ^^^ rotr 25 x

/-- SHA-256 small sigma-0. -/
def ssig0 (x : Nat) : Nat := rotr 7 x ^^^ rotr 18 x ^^^ (x >>> 3)

/-- SHA-256 small sigma-1. -/
def ssig1 (x : Nat) : Nat := rotr 17 x ^^^ rotr 19 x ^^^ (x >>> 10)

/-- The 64 SHA-256 round constants, four to a row. -/
def sha256K : List Nat := List.flatten
  [[0x428a2f98, 0x71374491, 0xb5c0fbcf, 0xe9b5dba5],
   [0x3956c25b, 0x59f111f1, 0x923f82a4, 0xab1c5ed5],
   [0xd807aa98, 0x12835b01, 0x243185be, 0x550c7dc3],
   [0x72be5d74, 0x80deb1fe, 0x9bdc06a7, 0xc19bf174],
   [0xe49b69c1, 0xefbe4786, 0x0fc19dc6, 0x240ca1cc],
   [0x2de92c6f, 0x4a7484aa, 0x5cb0a9dc, 0x76f988da],
   [0x983e5152, 0xa831c66d, 0xb00327c8, 0xbf597fc7],
   [0xc6e00bf3, 0xd5a79147, 0x06ca6351, 0x14292967],
   [0x27b70a85, 0x2e1b2138, 0x4d2c6dfc, 0x53380d13],
   [0x650a7354, 0x766a0abb, 0x81c2c92e, 0x92722c85],
   [0xa2bfe8a1, 0xa81a664b, 0xc24b8b70, 0xc76c51a3],
   [0xd192e819, 0xd6990624, 0xf40e3585, 0x106aa070],
   [0x19a4c116, 0x1e376c08, 0x2748774c, 0x34b0bcb5],
   [0x391c0cb3, 0x4ed8aa4a, 0x5b9cca4f, 0x682e6ff3],
   [0x748f82ee, 0x78a5636f, 0x84c87814, 0x8cc70208],
   [0x90befffa, 0xa4506ceb, 0xbef9a3f7, 0xc67178f2]]

/-- SHA-256 working state: eight 32-bit words. -/
structure H8 where
  a : Nat
  b : Nat
  c : Nat
  d : Nat
  e : Nat
  f : Nat
  g : Nat
  h : Nat
deriving DecidableEq, Repr

/-- SHA-256 initial hash value. -/
def sha256Init : H8 :=
  { a := 0x6a09e667, b := 0xbb67ae85, c := 0x3c6ef372, d := 0xa54ff53a,
    e := 0x510e527f, f := 0x9b05688c, g := 0x1f83d9ab, h := 0x5be0cd19 }

/-- Big-endian byte serialisation of `n` on `k` bytes. -/
def beBytes : Nat → Nat → List Nat
  | 0, _ => []
  | k + 1, n => beBytes k (n / 256) ++ [n % 256]

/-- Group a byte list into big-endian 32-bit words (four bytes per word). -/
def beWords : List Nat → List Nat
  | b0 :: b1 :: b2 :: b3 :: rest => (((b0 * 256 + b1) * 256 + b2) * 256 + b3) :: beWords rest
  | _ => []

/-- One step of message-schedule extension, on the reversed schedule list
(`rev.getD 1` is `w[i-2]`, `rev.getD 6` is `w[i-7]`, `rev.getD 14` is
`w[i-15]`, `rev.getD 15` is `w[i-16]`). -/
def schedStep (rev : List Nat) : List Nat :=
  w32 (ssig1 (rev.getD 1 0) + rev.getD 6 0 + ssig0 (rev.getD 14 0) + rev.getD 15 0) :: rev

/-- Extend the 16 words of a block to the 64-word message schedule. -/
def sha256Schedule (ws : List Nat) : List Nat := (schedStep^[48] ws.reverse).reverse

/-- One SHA-256 compression round; `kw` is the round constant plus the
schedule word, already truncated. -/
def sha256Round (s : H8) (kw : Nat) : H8 :=
  let t1 := w32 (s.h + bsig1 s.e + ch s.e s.f s.g + kw)
  let t2 := w32 (bsig0 s.a + maj s.a s.b s.c)
  ⟨w32 (t1 + t2), s.a, s.b, s.c, w32 (s.d + t1), s.e, s.f, s.g⟩

/-- SHA-256 compression of one 16-word block into the chaining state. -/
def sha256Compress (s : H8) (ws : List Nat) : H8 :=
  let t := (List.zipWith (fun k w => w32 (k + w)) sha256K (sha256Schedule ws)).foldl sha256Round s
  ⟨w32 (s.a + t.a), w32 (s.b + t.b), w32 (s.c + t.c), w32 (s.d + t.d),
   w32 (s.e + t.e), w32 (s.f + t.f), w32 (s.g + t.g), w32 (s.h + t.h)⟩

/-- SHA-256 padding: append `0x80`, zero bytes up to 56 mod 64, then the
bit length on eight big-endian bytes. -/
def sha256Pad (msg : List Nat) : List Nat :=
  msg ++ 0x80 :: List.replicate ((64 - (msg.length + 9) % 64) % 64) 0 ++ beBytes 8 (8 * msg.length)

/-- Split a (padded) byte list into `k` blocks of 64 bytes. -/
def splitBlocks : Nat → List Nat → List (List Nat)
  | 0, _ => []
  | k + 1, l => l.take 64 :: splitBlocks k (l.drop 64)

/-- The 64-byte blocks of the padded message. -/
def sha256Blocks (msg : List Nat) : List (List Nat) :=
  splitBlocks ((sha256Pad msg).length / 64) (sha256Pad msg)

/-- SHA-256 of a byte list, as a 32-byte digest. -/
def sha256 (msg : List Nat) : List Nat :=
  let t := (sha256Blocks msg).foldl (fun s blk => sha256Compress s (beWords blk)) sha256Init
  beBytes 4 t.a ++ beBytes 4 t.b ++ beBytes 4 t.c ++ beBytes 4 t.d ++
  beBytes 4 t.e ++ beBytes 4 t.f ++ beBytes 4 t.g ++ beBytes 4 t.h

/-- HMAC-SHA256 (RFC 2104) with the SHA-256 block size of 64 bytes. -/
def hmacSha256 (key msg : List Nat) : List Nat :=
  let k0 := if 64 < key.length then sha256 key else key
  let kp := k0 ++ List.replicate (64 - k0.length) 0
  sha256 ((kp.map (fun x => x ^^^ 0x5c)) ++ sha256 ((kp.map (fun x => x ^^^ 0x36)) ++ msg))

/-- UTF-8 encoding of one character. -/
def utf8Char (c : Char) : List Nat :=
  let n := c.toNat
  if n < 0x80 then [n]
  else if n < 0x800 then [0xc0 ||| (n >>> 6), 0x80 ||| (n &&& 0x3f)]
  else if n < 0x10000 then
    [0xe0 ||| (n >>> 12), 0x80 ||| ((n >>> 6) &&& 0x3f), 0x80 ||| (n &&& 0x3f)]
  else
    [0xf0 ||| (n >>> 18), 0x80 ||| ((n >>> 12) &&& 0x3f),
     0x80 ||| ((n >>> 6) &&& 0x3f), 0x80 ||| (n &&& 0x3f)]

/-- UTF-8 encoding of a string (`codecs.encode(s, 'utf-8')`). -/
def utf8Encode (s : String) : List Nat := (s.data.map utf8Char).flatten

/-- The URL-safe base64 alphabet used by `base64.urlsafe_b64encode`. -/
def b64Alphabet : String :=
  "ABCDEFGHIJKLMNOPQRSTUVWXYZabcdefghijklmnopqrstuvwxyz0123456789-_"

/-- Character for a 6-bit value in the URL-safe base64 alphabet. -/
def b64Char (n : Nat) : Char := b64Alphabet.data.getD n 'A'

/-- URL-safe base64 of a byte list, three input bytes per four output
characters, with `=` padding on a final group of one or two bytes. -/
def b64Groups : List Nat → List Char
  | [] => []
  | [b0] => [b64Char (b0 / 4), b64Char (b0 % 4 * 16), '=', '=']
  | [b0, b1] => [b64Char (b0 / 4), b64Char (b0 % 4 * 16 + b1 / 16), b64Char (b1 % 16 * 4), '=']
  | b0 :: b1 :: b2 :: rest =>
    b64Char (b0 / 4) :: b64Char (b0 % 4 * 16 + b1 / 16) ::
    b64Char (b1 % 16 * 4 + b2 / 64) :: b64Char (b2 % 64) :: b64Groups rest

/-- Strip all trailing `=` characters (`encoded.rstrip('=')`). -/
def rstripEq (s : String) : String := String.mk ((s.data.reverse.dropWhile (· = '=')).reverse)

/-- Embeds `_base64_encode` applied to a byte value (its only use in the
source is on the raw HMAC digest): URL-safe base64 followed by removal of
the trailing `=` padding characters. -/
def base64_encode (decoded : List Nat) : String := rstripEq (String.mk (b64Groups decoded))

/-- A secret key as accepted by the public functions: absent (`None`),
binary (`bytes`) or textual (`str`). -/
inductive SecretKey where
  | none : SecretKey
  | bytes (b : List Nat) : SecretKey
  | text (s : String) : SecretKey
deriving DecidableEq

/-- Embeds `_ensure_bytes`: `None` stays `None`, `bytes` pass through,
text is UTF-8 encoded. -/
def ensure_bytes : SecretKey → Option (List Nat)
  | SecretKey.none => Option.none
  | SecretKey.bytes b => some b
  | SecretKey.text s => some (utf8Encode s)

/-- Python-level failure; `hmac.new(None, msg, sha256)` raises `TypeError`. -/
inductive PyError where
  | typeError : PyError
deriving DecidableEq

instance : DecidableEq (Except PyError String) := fun x y =>
  match x, y with
  | Except.error a, Except.error b => decidable_of_iff (a = b) (by simp)
  | Except.ok a, Except.ok b => decidable_of_iff (a = b) (by simp)
  | Except.error _, Except.ok _ => isFalse (by simp)
  | Except.ok _, Except.error _ => isFalse (by simp)

instance : DecidableEq (Except PyError Bool) := fun x y =>
  match x, y with
  | Except.error a, Except.error b => decidable_of_iff (a = b) (by simp)
  | Except.ok a, Except.ok b => decidable_of_iff (a = b) (by simp)
  | Except.error _, Except.ok _ => isFalse (by simp)
  | Except.ok _, Except.error _ => isFalse (by simp)

/-- Embeds `_signature(base_id, secret_key)`: HMAC-SHA256 of the UTF-8
bytes of `base_id` under `secret_key`, URL-safe base64 encoded with the
`=` padding stripped. With an absent key, `hmac.new(None, ...)` raises
`TypeError`. (`_ensure_bytes` on an `Optional[bytes]` argument is the
identity, so it does not appear.) -/
def signatureE (base_id : String) (secret_key : Option (List Nat)) : Except PyError String :=
  match secret_key with
  | Option.none => Except.error PyError.typeError
  | some k => Except.ok (base64_encode (hmacSha256 k (utf8Encode base_id)))

/-- The signature string for a present key (the `ok` payload of
`signatureE`). -/
def sigString (base_id : String) (k : List Nat) : String :=
  base64_encode (hmacSha256 k (utf8Encode base_id))

/-- The default alphabet of `_get_random_string`. -/
def allowed_chars : String :=
  "abcdefghijklmnopqrstuvwxyzABCDEFGHIJKLMNOPQRSTUVWXYZ0123456789"

/-- Embeds `random.choice(chars)`: the generator supplies a value `r`, and
the choice is the character at index `r % len(chars)` (Python draws the
index below `len(chars)` directly; the modulus makes the model total in
`r` without changing the range of results). -/
def choice (chars : String) (r : Nat) : Char := chars.data.getD (r % chars.data.length) 'a'

/-- Embeds `_get_random_string(length, allowed_chars, secret_key)` with the
generator abstracted as the draw stream `g`: `length` characters chosen
from `chars` one at a time. (The `_reseed_if_needed` call mutates only
generator state, which `g` already ranges over; its event structure is
modelled separately by `get_random_string_events`.) -/
def get_random_string (g : Nat → Nat) (length : Nat := 44) (chars : String := allowed_chars) :
    String :=
  String.mk ((List.range length).map (fun i => choice chars (g i)))

/-- Embeds `session_id.split('-', 1)`, accumulator-style: `acc` holds the
scanned prefix reversed. -/
def splitOnceAux (sep : Char) (acc : List Char) : List Char → List String
  | [] => [String.mk acc.reverse]
  | c :: cs =>
    if c = sep then [String.mk acc.reverse, String.mk cs]
    else splitOnceAux sep (c :: acc) cs

/-- Embeds Python `s.split(sep, 1)`: split on the first occurrence of
`sep` only; a string without `sep` yields a single piece. -/
def splitOnce (sep : Char) (s : String) : List String := splitOnceAux sep [] s.data

/-- Whether every character of the string is ASCII (code point below 128). -/
def isAsciiStr (s : String) : Bool := s.data.all (fun c => c.toNat < 128)

/-- Embeds `hmac.compare_digest(a, b)` on `str` arguments: CPython requires
both strings to be ASCII-only and raises `TypeError` otherwise; on ASCII
strings it decides their equality. (Its running time is constant in the
position of the first difference; that intensional property has no
counterpart in a functional model.) -/
def compare_digest (a b : String) : Except PyError Bool :=
  if isAsciiStr a && isAsciiStr b then Except.ok (a == b)
  else Except.error PyError.typeError

/-- Embeds `generate_session_id(secret_key, signed)`: normalise the key,
draw a 44-character base identifier, and when `signed` append `'-'` and the
signature of the base identifier. Propagates the `TypeError` that signing
with an absent key raises. -/
def generate_session_id (g : Nat → Nat) (secret_key : SecretKey) (signed : Bool) :
    Except PyError String :=
  let key := ensure_bytes secret_key
  if signed then
    let base_id := get_random_string g 44 allowed_chars
    match signatureE base_id key with
    | Except.error e => Except.error e
    | Except.ok sig => Except.ok (base_id ++ "-" ++ sig)
  else
    Except.ok (get_random_string g 44 allowed_chars)

/-- Embeds `check_session_id_signature(session_id, secret_key, signed)`:
when `signed`, split on the first `'-'`; without a separator return
`False`; otherwise recompute the signature of the first piece and compare
it to the second with `hmac.compare_digest`. When not `signed`, return
`True`. -/
def check_session_id_signature (session_id : String) (secret_key : SecretKey) (signed : Bool) :
    Except PyError Bool :=
  let key := ensure_bytes secret_key
  if signed then
    match splitOnce '-' session_id with
    | [base_id, provided_signature] =>
      match signatureE base_id key with
      | Except.error e => Except.error e
      | Except.ok expected_signature =>
        compare_digest expected_signature provided_signature
    | _ => Except.ok false
  else
    Except.ok true

/-- Embeds `generate_secret_key()`: a fresh random string with the default
length and alphabet. -/
def generate_secret_key (g : Nat → Nat) : String := get_random_string g 44 allowed_chars

/-- Observable events of the random-string routine: a re-seed of the
fallback generator, or the draw of one character. -/
inductive REvent where
  | reseed : REvent
  | draw (c : Char) : REvent
deriving DecidableEq

/-- Event trace of `_reseed_if_needed(using_sysrandom, secret_key)`: it
re-seeds the generator exactly when the system generator is not in use
(the seed value mixes generator state, wall-clock time and the key, all
absorbed into the abstract draw stream). -/
def reseed_if_needed_events (using_sysrandom : Bool) : List REvent :=
  if using_sysrandom then [] else [REvent.reseed]

/-- Event trace of `_get_random_string(length, chars, key)`: one
`_reseed_if_needed` call, then the string-building loop
`''.join(random.choice(allowed_chars) for i in range(length))`, one draw
per character. -/
def get_random_string_events (using_sysrandom : Bool) (g : Nat → Nat) (length : Nat)
    (chars : String) : List REvent :=
  reseed_if_needed_events using_sysrandom ++
    (List.range length).map (fun i => REvent.draw (choice chars (g i)))

/-- Classifier for draw events. -/
def isDraw : REvent → Bool
  | REvent.reseed => false
  | REvent.draw _ => true

/-- The byte value of the Python literal `b"topsecret"` (nine ASCII bytes). -/
def topsecret : List Nat := utf8Encode "topsecret"

/-! ### Helper lemmas -/

theorem beBytes_length (k n : Nat) : (beBytes k n).length = k := by
  induction k generalizing n with
  | zero => rfl
  | succ k ih => simp [beBytes, ih]

theorem beBytes_lt (k n : Nat) : ∀ x ∈ beBytes k n, x < 256 := by
  induction k generalizing n with
  | zero => simp [beBytes]
  | succ k ih =>
    intro x hx
    simp only [beBytes, List.mem_append, List.mem_singleton] at hx
    rcases hx with hx | hx
    · exact ih _ x hx
    · omega

theorem sha256_length (msg : List Nat) : (sha256 msg).length = 32 := by
  simp [sha256, beBytes_length]

theorem sha256_lt (msg : List Nat) : ∀ x ∈ sha256 msg, x < 256 := by
  intro x hx
  simp only [sha256, List.mem_append] at hx
  rcases hx with ((((((hx | hx) | hx) | hx) | hx) | hx) | hx) | hx <;>
    exact beBytes_lt _ _ x hx

theorem getD_mem {α : Type} (l : List α) (n : Nat) (d : α) (h : n < l.length) :
    l.getD n d ∈ l := by
  rw [List.getD_eq_getElem l d h]
  exact List.getElem_mem h

theorem b64Char_mem (n : Nat) (h : n < 64) : b64Char n ∈ b64Alphabet.data := by
  have hlen : n < b64Alphabet.data.length := by
    have : b64Alphabet.data.length = 64 := by decide
    omega
  exact getD_mem _ _ _ hlen

theorem b64Alphabet_no_pad : ∀ c ∈ b64Alphabet.data, c ≠ '=' := by decide

theorem b64Groups_spec :
    ∀ (k : Nat) (l : List Nat), (∀ x ∈ l, x < 256) → l.length = 3 * k + 2 →
      ∃ cs, b64Groups l = cs ++ ['='] ∧ cs.length = 4 * k + 3 ∧
        ∀ c ∈ cs, c ∈ b64Alphabet.data := by
  intro k
  induction k with
  | zero =>
    intro l hlt hlen
    obtain ⟨b0, l1, rfl⟩ := List.exists_of_length_succ l (show l.length = 1 + 1 by omega)
    simp only [List.length_cons] at hlen
    obtain ⟨b1, l2, rfl⟩ := List.exists_of_length_succ l1 (show l1.length = 0 + 1 by omega)
    simp only [List.length_cons] at hlen
    obtain rfl := List.eq_nil_of_length_eq_zero (show l2.length = 0 by omega)
    have hb0 : b0 < 256 := hlt b0 (by simp)
    have hb1 : b1 < 256 := hlt b1 (by simp)
    refine ⟨[b64Char (b0 / 4), b64Char (b0 % 4 * 16 + b1 / 16), b64Char (b1 % 16 * 4)],
      rfl, rfl, ?_⟩
    intro c hc
    rcases List.mem_cons.mp hc with rfl | hc
    · exact b64Char_mem _ (by omega)
    rcases List.mem_cons.mp hc with rfl | hc
    · exact b64Char_mem _ (by omega)
    rcases List.mem_cons.mp hc with rfl | hc
    · exact b64Char_mem _ (by omega)
    exact absurd hc (List.not_mem_nil c)
  | succ k ih =>
    intro l hlt hlen
    obtain ⟨b0, l1, rfl⟩ :=
      List.exists_of_length_succ l (show l.length = (3 * k + 4) + 1 by omega)
    simp only [List.length_cons] at hlen
    obtain ⟨b1, l2, rfl⟩ :=
      List.exists_of_length_succ l1 (show l1.length = (3 * k + 3) + 1 by omega)
    simp only [List.length_cons] at hlen
    obtain ⟨b2, l3, rfl⟩ :=
      List.exists_of_length_succ l2 (show l2.length = (3 * k + 2) + 1 by omega)
    simp only [List.length_cons] at hlen
    have hb0 : b0 < 256 := hlt b0 (by simp)
    have hb1 : b1 < 256 := hlt b1 (by simp)
    have hb2 : b2 < 256 := hlt b2 (by simp)
    obtain ⟨cs, hcs, hcl, hcm⟩ :=
      ih l3 (fun x hx => hlt x (by simp [hx])) (show l3.length = 3 * k + 2 by omega)
    refine ⟨b64Char (b0 / 4) :: b64Char (b0 % 4 * 16 + b1 / 16) ::
      b64Char (b1 % 16 * 4 + b2 / 64) :: b64Char (b2 % 64) :: cs, ?_, ?_, ?_⟩
    · simp [b64Groups, hcs]
    · simp [hcl]; omega
    · intro c hc
      rcases List.mem_cons.mp hc with rfl | hc
      · exact b64Char_mem _ (by omega)
      rcases List.mem_cons.mp hc with rfl | hc
      · exact b64Char_mem _ (by omega)
      rcases List.mem_cons.mp hc with rfl | hc
      · exact b64Char_mem _ (by omega)
      rcases List.mem_cons.mp hc with rfl | hc
      · exact b64Char_mem _ (by omega)
      exact hcm c hc

theorem dropWhile_eq_self_of_none {p : Char → Bool} :
    ∀ l : List Char, (∀ c ∈ l, p c = false) → List.dropWhile p l = l := by
  intro l h
  cases l with
  | nil => rfl
  | cons c cs => simp [List.dropWhile, h c (by simp)]

theorem rstripEq_snoc (cs : List Char) (h : '=' ∉ cs) :
    rstripEq (String.mk (cs ++ ['='])) = String.mk cs := by
  have hdw : List.dropWhile (fun c => c = '=') cs.reverse = cs.reverse := by
    apply dropWhile_eq_self_of_none
    intro c hc
    simp only [decide_eq_false_iff_not]
    intro heq
    subst heq
    exact h ((List.mem_reverse).mp hc)
  unfold rstripEq
  have hd : (String.mk (cs ++ ['='])).data = cs ++ ['='] := rfl
  rw [hd, List.reverse_append]
  simp only [List.reverse_singleton, List.singleton_append, List.dropWhile_cons]
  simp only [decide_True, if_true]
  rw [hdw, List.reverse_reverse]

theorem sigString_length (b : String) (k : List Nat) :
    (sigString b k).length = 43 ∧ ∀ c ∈ (sigString b k).data, c ∈ b64Alphabet.data ∧ c ≠ '=' := by
  have hd := b64Groups_spec 10 (hmacSha256 k (utf8Encode b))
    (sha256_lt _) (by rw [hmacSha256]; simp [sha256_length])
  obtain ⟨cs, hcs, hcl, hcm⟩ := hd
  have hne : '=' ∉ cs := fun hmem => b64Alphabet_no_pad '=' (hcm '=' hmem) rfl
  have : sigString b k = String.mk cs := by
    unfold sigString base64_encode
    rw [hcs]
    exact rstripEq_snoc cs hne
  rw [this]
  constructor
  · show cs.length = 43
    omega
  · intro c hc
    exact ⟨hcm c hc, fun hq => hne (hq ▸ hc)⟩

theorem b64Alphabet_ascii : ∀ c ∈ b64Alphabet.data, c.toNat < 128 := by decide

theorem sigString_ascii (b : String) (k : List Nat) :
    isAsciiStr (sigString b k) = true := by
  obtain ⟨-, hmem⟩ := sigString_length b k
  unfold isAsciiStr
  rw [List.all_eq_true]
  intro c hc
  simpa using b64Alphabet_ascii c (hmem c hc).1

theorem choice_mem (chars : String) (r : Nat) (h : chars.data ≠ []) :
    choice chars r ∈ chars.data := by
  unfold choice
  have hlen : r % chars.data.length < chars.data.length :=
    Nat.mod_lt _ (List.length_pos.mpr h)
  exact getD_mem _ _ _ hlen

theorem get_random_string_length (g : Nat → Nat) (n : Nat) (chars : String) :
    (get_random_string g n chars).length = n := by
  simp [get_random_string, String.length]

theorem get_random_string_mem (g : Nat → Nat) (n : Nat) (chars : String)
    (h : chars.data ≠ []) : ∀ c ∈ (get_random_string g n chars).data, c ∈ chars.data := by
  intro c hc
  simp only [get_random_string, List.mem_map, List.mem_range] at hc
  obtain ⟨i, _, rfl⟩ := hc
  exact choice_mem chars (g i) h

theorem allowed_chars_nonempty : allowed_chars.data ≠ [] := by decide

theorem allowed_chars_no_hyphen : ('-' : Char) ∉ allowed_chars.data := by decide

theorem get_random_string_no_hyphen (g : Nat → Nat) (n : Nat) :
    ('-' : Char) ∉ (get_random_string g n allowed_chars).data := by
  intro h
  exact allowed_chars_no_hyphen
    (get_random_string_mem g n allowed_chars allowed_chars_nonempty '-' h)

theorem splitOnceAux_of_not_mem (sep : Char) :
    ∀ (l acc : List Char), sep ∉ l →
      splitOnceAux sep acc l = [String.mk (acc.reverse ++ l)] := by
  intro l
  induction l with
  | nil => intro acc _; simp [splitOnceAux]
  | cons c cs ih =>
    intro acc h
    have hc : ¬ c = sep := fun hq => h (hq ▸ List.mem_cons_self c cs)
    simp only [splitOnceAux, if_neg hc]
    rw [ih (c :: acc) (fun hm => h (List.mem_cons_of_mem c hm))]
    simp

theorem splitOnceAux_of_sep (sep : Char) :
    ∀ (l : List Char) (acc rest : List Char), sep ∉ l →
      splitOnceAux sep acc (l ++ sep :: rest) =
        [String.mk (acc.reverse ++ l), String.mk rest] := by
  intro l
  induction l with
  | nil => intro acc rest _; simp [splitOnceAux]
  | cons c cs ih =>
    intro acc rest h
    have hc : ¬ c = sep := fun hq => h (hq ▸ List.mem_cons_self c cs)
    simp only [List.cons_append, splitOnceAux, if_neg hc, List.append_eq]
    rw [ih (c :: acc) rest (fun hm => h (List.mem_cons_of_mem c hm))]
    simp

theorem splitOnce_of_not_mem (sep : Char) (s : String) (h : sep ∉ s.data) :
    splitOnce sep s = [s] := by
  unfold splitOnce
  rw [splitOnceAux_of_not_mem sep s.data [] h]
  rfl

theorem splitOnce_append (b s : String) (h : ('-' : Char) ∉ b.data) :
    splitOnce '-' (b ++ "-" ++ s) = [b, s] := by
  unfold splitOnce
  have hdash : ("-" : String).data = ['-'] := rfl
  have hdata : (b ++ "-" ++ s).data = b.data ++ '-' :: s.data := by
    rw [String.data_append, String.data_append, hdash, List.append_assoc,
      List.singleton_append]
  rw [hdata, splitOnceAux_of_sep '-' b.data [] s.data h]
  rfl

theorem first_split (sep : Char) :
    ∀ l : List Char, sep ∈ l → ∃ p q, l = p ++ sep :: q ∧ sep ∉ p := by
  intro l
  induction l with
  | nil => intro h; cases h
  | cons c cs ih =>
    intro h
    by_cases hc : c = sep
    · exact ⟨[], cs, by simp [hc], by simp⟩
    · have hm : sep ∈ cs := by
        rcases List.mem_cons.mp h with hq | hq
        · exact absurd hq.symm hc
        · exact hq
      obtain ⟨p, q, hpq, hnp⟩ := ih hm
      exact ⟨c :: p, q, by simp [hpq], by
        intro hmem
        rcases List.mem_cons.mp hmem with hq | hq
        · exact hc hq.symm
        · exact hnp hq⟩

theorem ensure_bytes_isSome (key : SecretKey) (h : key ≠ SecretKey.none) :
    ∃ k, ensure_bytes key = some k := by
  cases key with
  | none => exact absurd rfl h
  | bytes b => exact ⟨b, rfl⟩
  | text s => exact ⟨utf8Encode s, rfl⟩

/-! ### Claim theorems -/

/-- C1: for every valid pair of secret key and signed flag (the key is
present whenever `signed` is true), verifying a freshly generated token
with the same key and flag succeeds:
`check_session_id_signature (generate_session_id key signed) key signed`
returns `true`, for every behaviour of the random generator. -/
theorem generate_check_roundtrip (g : Nat → Nat) (key : SecretKey) (signed : Bool)
    (h : signed = true → key ≠ SecretKey.none) :
    ∃ t, generate_session_id g key signed = Except.ok t ∧
      check_session_id_signature t key signed = Except.ok true := by
  cases signed with
  | false => exact ⟨get_random_string g 44 allowed_chars, rfl, rfl⟩
  | true =>
    obtain ⟨k, hk⟩ := ensure_bytes_isSome key (h rfl)
    refine ⟨get_random_string g 44 allowed_chars ++ "-" ++
      sigString (get_random_string g 44 allowed_chars) k, ?_, ?_⟩
    · simp [generate_session_id, hk, signatureE, sigString]
    · have hsplit := splitOnce_append (get_random_string g 44 allowed_chars)
        (sigString (get_random_string g 44 allowed_chars) k)
        (get_random_string_no_hyphen g 44)
      have hascii := sigString_ascii (get_random_string g 44 allowed_chars) k
      simp only [sigString] at hsplit hascii
      simp [check_session_id_signature, hk, hsplit, signatureE, sigString, compare_digest,
        hascii]

/-- C1 witness: the round trip at a concrete generator, key and flag. -/
theorem generate_check_roundtrip_witness :
    ∃ t, generate_session_id (fun _ => 0) (SecretKey.text "k") true = Except.ok t ∧
      check_session_id_signature t (SecretKey.text "k") true = Except.ok true :=
  generate_check_roundtrip (fun _ => 0) (SecretKey.text "k") true (fun _ => by decide)

/-- C2: every token generated with `secret_key = b"topsecret"` and
`signed = true` has, after its first hyphen, exactly the URL-safe base64
encoding (trailing `=` stripped) of the HMAC-SHA256 digest keyed with
`b"topsecret"` over the UTF-8 bytes of the part before the first hyphen. -/
theorem generated_signature_recomputes (g : Nat → Nat) (t : String)
    (h : generate_session_id g (SecretKey.bytes topsecret) true = Except.ok t) :
    ∃ b s, splitOnce '-' t = [b, s] ∧
      s = base64_encode (hmacSha256 topsecret (utf8Encode b)) := by
  simp [generate_session_id, ensure_bytes, signatureE] at h
  refine ⟨get_random_string g 44 allowed_chars,
    base64_encode (hmacSha256 topsecret (utf8Encode (get_random_string g 44 allowed_chars))),
    ?_, rfl⟩
  rw [← h]
  exact splitOnce_append _ _ (get_random_string_no_hyphen g 44)

set_option maxRecDepth 100000 in
/-- C2 witness: the recomputation property at a concrete generated token. -/
theorem generated_signature_recomputes_witness :
    ∃ b s, splitOnce '-'
        "aaaaaaaaaaaaaaaaaaaaaaaaaaaaaaaaaaaaaaaaaaaa-mAShKEbF01eZyVbiA0FibljVIxCcyuvVc1THu8Y9mPw"
        = [b, s] ∧
      s = base64_encode (hmacSha256 topsecret (utf8Encode b)) :=
  generated_signature_recomputes (fun _ => 0)
    "aaaaaaaaaaaaaaaaaaaaaaaaaaaaaaaaaaaaaaaaaaaa-mAShKEbF01eZyVbiA0FibljVIxCcyuvVc1THu8Y9mPw"
    (by decide)

set_option maxRecDepth 100000 in
/-- C3 counterexample: on the token `"a-é"`, whose part after the first
hyphen is not ASCII, verification with a present key and `signed = true`
raises the `TypeError` of `hmac.compare_digest` instead of returning a
boolean, so the first-split characterisation does not hold for every
token string. -/
theorem check_nonascii_token_counterexample :
    check_session_id_signature "a-é" (SecretKey.bytes [1]) true =
      Except.error PyError.typeError ∧
    check_session_id_signature "a-é" (SecretKey.bytes [1]) true ≠ Except.ok true ∧
    check_session_id_signature "a-é" (SecretKey.bytes [1]) true ≠ Except.ok false := by
  refine ⟨?_, ?_, ?_⟩ <;> decide

/-- C3 amended: with `signed = true` and a present key, verification splits
the token on its first hyphen only: a token with no hyphen yields `false`;
a token with a hyphen decomposes as `b ++ "-" ++ s` with `b` hyphen-free
and, provided the part `s` after the first hyphen is ASCII-only (as
`hmac.compare_digest` requires of `str` arguments), the result is `true`
exactly when the recomputed signature over `b` equals `s`. -/
theorem check_splits_on_first_hyphen_ascii (t : String) (key : SecretKey)
    (h : key ≠ SecretKey.none) :
    (('-' : Char) ∉ t.data → check_session_id_signature t key true = Except.ok false) ∧
    (('-' : Char) ∈ t.data → ∃ b s, splitOnce '-' t = [b, s] ∧
      t.data = b.data ++ '-' :: s.data ∧ ('-' : Char) ∉ b.data ∧
      ∀ k, ensure_bytes key = some k → isAsciiStr s = true →
        check_session_id_signature t key true = Except.ok (sigString b k == s) ∧
        (check_session_id_signature t key true = Except.ok true ↔ sigString b k = s)) := by
  obtain ⟨k0, hk0⟩ := ensure_bytes_isSome key h
  constructor
  · intro hno
    have hsp := splitOnce_of_not_mem '-' t hno
    simp [check_session_id_signature, hsp, hk0]
  · intro hyes
    obtain ⟨p, q, hpq, hnp⟩ := first_split '-' t.data hyes
    have hsp : splitOnce '-' t = [String.mk p, String.mk q] := by
      unfold splitOnce
      rw [hpq, splitOnceAux_of_sep '-' p [] q hnp]
      rfl
    refine ⟨String.mk p, String.mk q, hsp, hpq, hnp, ?_⟩
    intro k hk hascii
    have he := sigString_ascii (String.mk p) k
    simp only [sigString] at he
    constructor
    · simp [check_session_id_signature, hsp, hk, signatureE, sigString, compare_digest,
        he, hascii]
    · simp [check_session_id_signature, hsp, hk, signatureE, sigString, compare_digest,
        he, hascii]

/-- C3 witness: the amended first-split characterisation at a concrete
token and key. -/
theorem check_splits_on_first_hyphen_ascii_witness :
    (('-' : Char) ∉ ("x-y" : String).data →
      check_session_id_signature "x-y" (SecretKey.bytes [1, 2]) true = Except.ok false) ∧
    (('-' : Char) ∈ ("x-y" : String).data → ∃ b s, splitOnce '-' "x-y" = [b, s] ∧
      ("x-y" : String).data = b.data ++ '-' :: s.data ∧ ('-' : Char) ∉ b.data ∧
      ∀ k, ensure_bytes (SecretKey.bytes [1, 2]) = some k → isAsciiStr s = true →
        check_session_id_signature "x-y" (SecretKey.bytes [1, 2]) true =
          Except.ok (sigString b k == s) ∧
        (check_session_id_signature "x-y" (SecretKey.bytes [1, 2]) true = Except.ok true ↔
          sigString b k = s)) :=
  check_splits_on_first_hyphen_ascii "x-y" (SecretKey.bytes [1, 2]) (by decide)

/-- C4: generating with `signed = true` and an absent key fails with the
`TypeError` that `hmac.new(None, ...)` raises, and never returns a token. -/
theorem generate_signed_no_key_errors (g : Nat → Nat) :
    generate_session_id g SecretKey.none true = Except.error PyError.typeError := rfl

/-- C5 counterexample: generating one 44-character base identifier on the
non-secure fallback path produces a trace with 44 character draws but a
single re-seed event, so the fallback generator is not re-seeded on every
single-character draw. -/
theorem reseed_per_draw_counterexample :
    ¬ ((get_random_string_events false (fun _ => 0) 44 allowed_chars).countP isDraw ≤
        (get_random_string_events false (fun _ => 0) 44 allowed_chars).count REvent.reseed) ∧
    (get_random_string_events false (fun _ => 0) 44 allowed_chars).count REvent.reseed = 1 ∧
    (get_random_string_events false (fun _ => 0) 44 allowed_chars).countP isDraw = 44 := by
  decide

/-- C5 amended: when the active randomness source is the non-secure
fallback, the generator re-seeds the fallback pseudo-random generator
exactly once per generated string, before the string-building loop (and
never when the secure source is active), not once per character draw. -/
theorem reseed_once_per_string (g : Nat → Nat) (length : Nat) (chars : String) :
    get_random_string_events false g length chars =
      REvent.reseed :: (List.range length).map (fun i => REvent.draw (choice chars (g i))) ∧
    (get_random_string_events false g length chars).count REvent.reseed = 1 ∧
    (get_random_string_events true g length chars).count REvent.reseed = 0 := by
  have hz : ((List.range length).map
      (fun i => REvent.draw (choice chars (g i)))).count REvent.reseed = 0 := by
    apply List.count_eq_zero.mpr
    intro hmem
    simp only [List.mem_map] at hmem
    obtain ⟨i, _, hq⟩ := hmem
    exact REvent.noConfusion hq
  refine ⟨by simp [get_random_string_events, reseed_if_needed_events], ?_, ?_⟩
  · simp [get_random_string_events, reseed_if_needed_events, hz]
  · simp [get_random_string_events, reseed_if_needed_events, hz]

/-- C6: with `signed = false`, verification returns `true` for every token
and every secret key, absent, textual or binary. -/
theorem check_unsigned_always_true (t : String) (key : SecretKey) :
    check_session_id_signature t key false = Except.ok true := rfl

/-- C7: with a present key, an unsigned token is 44 characters from the
62-character alphanumeric alphabet, and a signed token is such a base
identifier, a hyphen, and a 43-character signature over the base64url
alphabet containing no `=`, the signature length independent of generator
and key. -/
theorem token_text_format (g : Nat → Nat) (key : SecretKey) (h : key ≠ SecretKey.none) :
    (∃ t, generate_session_id g key false = Except.ok t ∧ t.length = 44 ∧
      ∀ c ∈ t.data, c ∈ allowed_chars.data) ∧
    (∃ b s, generate_session_id g key true = Except.ok (b ++ "-" ++ s) ∧
      b.length = 44 ∧ (∀ c ∈ b.data, c ∈ allowed_chars.data) ∧
      s.length = 43 ∧ s ≠ "" ∧ ∀ c ∈ s.data, c ∈ b64Alphabet.data ∧ c ≠ '=') := by
  obtain ⟨k, hk⟩ := ensure_bytes_isSome key h
  constructor
  · exact ⟨get_random_string g 44 allowed_chars, rfl,
      get_random_string_length g 44 allowed_chars,
      get_random_string_mem g 44 allowed_chars allowed_chars_nonempty⟩
  · obtain ⟨hslen, hsmem⟩ := sigString_length (get_random_string g 44 allowed_chars) k
    refine ⟨get_random_string g 44 allowed_chars,
      sigString (get_random_string g 44 allowed_chars) k, ?_,
      get_random_string_length g 44 allowed_chars,
      get_random_string_mem g 44 allowed_chars allowed_chars_nonempty,
      hslen, ?_, hsmem⟩
    · simp [generate_session_id, hk, signatureE, sigString]
    · intro hq
      rw [hq] at hslen
      simp [String.length] at hslen

/-- C7 witness: the token format at a concrete generator and key. -/
theorem token_text_format_witness :
    (∃ t, generate_session_id (fun _ => 0) (SecretKey.text "secret") false = Except.ok t ∧
      t.length = 44 ∧ ∀ c ∈ t.data, c ∈ allowed_chars.data) ∧
    (∃ b s, generate_session_id (fun _ => 0) (SecretKey.text "secret") true =
        Except.ok (b ++ "-" ++ s) ∧
      b.length = 44 ∧ (∀ c ∈ b.data, c ∈ allowed_chars.data) ∧
      s.length = 43 ∧ s ≠ "" ∧ ∀ c ∈ s.data, c ∈ b64Alphabet.data ∧ c ≠ '=') :=
  token_text_format (fun _ => 0) (SecretKey.text "secret") (by decide)

/-- C8: secret-key normalisation is total and case-split as specified: an
absent key stays absent, a binary key passes through unchanged, and a
textual key becomes its UTF-8 byte encoding. -/
theorem ensure_bytes_normalisation :
    ensure_bytes SecretKey.none = Option.none ∧
    (∀ b, ensure_bytes (SecretKey.bytes b) = some b) ∧
    (∀ s, ensure_bytes (SecretKey.text s) = some (utf8Encode s)) :=
  ⟨rfl, fun _ => rfl, fun _ => rfl⟩

/-- C10: with `signed = true` and an absent key, verifying any token that
contains a hyphen raises the `TypeError` from `hmac.new(None, ...)` instead
of returning a boolean; `false` is only returned for malformed tokens when
a key is present (or when the token has no hyphen). -/
theorem check_signed_no_key_errors (t : String) (h : ('-' : Char) ∈ t.data) :
    check_session_id_signature t SecretKey.none true = Except.error PyError.typeError := by
  obtain ⟨p, q, hpq, hnp⟩ := first_split '-' t.data h
  have hsp : splitOnce '-' t = [String.mk p, String.mk q] := by
    unfold splitOnce
    rw [hpq, splitOnceAux_of_sep '-' p [] q hnp]
    rfl
  simp [check_session_id_signature, hsp, ensure_bytes, signatureE]

/-- C10 witness: the absent-key error at a concrete token with a hyphen. -/
theorem check_signed_no_key_errors_witness :
    check_session_id_signature "a-b" SecretKey.none true = Except.error PyError.typeError :=
  check_signed_no_key_errors "a-b" (by decide)

/-! ### Validation of the cryptographic primitives against published test
vectors (FIPS 180-4 examples and RFC 4231 test case 2). -/

set_option maxRecDepth 100000 in
example : sha256 (utf8Encode "abc") =
    [0xba, 0x78, 0x16, 0xbf, 0x8f, 0x01, 0xcf, 0xea, 0x41, 0x41, 0x40, 0xde,
     0x5d, 0xae, 0x22, 0x23, 0xb0, 0x03, 0x61, 0xa3, 0x96, 0x17, 0x7a, 0x9c,
     0xb4, 0x10, 0xff, 0x61, 0xf2, 0x00, 0x15, 0xad] := by decide

set_option maxRecDepth 100000 in
example : sha256 [] =
    [0xe3, 0xb0, 0xc4, 0x42, 0x98, 0xfc, 0x1c, 0x14, 0x9a, 0xfb, 0xf4, 0xc8,
     0x99, 0x6f, 0xb9, 0x24, 0x27, 0xae, 0x41, 0xe4, 0x64, 0x9b, 0x93, 0x4c,
     0xa4, 0x95, 0x99, 0x1b, 0x78, 0x52, 0xb8, 0x55] := by decide

set_option maxRecDepth 100000 in
example : hmacSha256 (utf8Encode "Jefe") (utf8Encode "what do ya want for nothing?") =
    [0x5b, 0xdc, 0xc1, 0x46, 0xbf, 0x60, 0x75, 0x4e, 0x6a, 0x04, 0x24, 0x26,
     0x08, 0x95, 0x75, 0xc7, 0x5a, 0x00, 0x3f, 0x08, 0x9d, 0x27, 0x39, 0x83,
     0x9d, 0xec, 0x58, 0xb9, 0x64, 0xec, 0x38, 0x43] := by decide

example : base64_encode (utf8Encode "Man") = "TWFu" := by decide

example : base64_encode (utf8Encode "M") = "TQ" := by decide

example : splitOnce '-' "a-b-c" = ["a", "b-c"] := by decide

example : splitOnce '-' "abc" = ["abc"] := by decide

end SessionId
